import Mathlib

/-!
Verification of the Config Store of `mcp-linker`
(`src/tauri-app/src-tauri/src/claude_code_commands.rs`).

The Rust module manipulates `serde_json::Value` trees stored in
`~/.claude.json` (and, on Windows, in WSL copies of that file).  We embed:

* `Json` — the `serde_json::Value` tree; objects are association lists of
  `(key, value)` pairs (serde maps have unique keys; lookup takes the first
  match, insertion replaces the first match in place).
* `ClaudeCodeServer`, `ClaudeCodeResponse` — the two Rust structs; the Rust
  field `r#type` is the Lean field `«type»`; the Rust `HashMap<String,String>`
  field `env` is an association list (`HashMap` equality is key-value-set
  equality, and list equality implies it).
* the pure document mutations performed by `claude_mcp_add` /
  `claude_mcp_remove`, the listing/getting logic of `claude_mcp_list` /
  `claude_mcp_get`, the codec `parse_server_config` / `server_to_json`;
* a file-system state `FS` (path → parsed JSON content) for the
  backup/restore discipline, with write-failure injection;
* an environment `Env` (platform flag, home directory, path-existence and
  directory-listing oracles) for `get_claude_config_path`,
  `find_wsl_claude_config` and `claude_list_projects`.

Path separators are modelled uniformly by `pjoin` (the Rust code uses
`Path::join`); `Path::with_extension` on a `.json` path appends the new
suffix, which `backup_path_for` reproduces.
-/

namespace McpLinker

/-- A `serde_json::Value`. Numbers are irrelevant to the Config Store and
are modelled as integers. -/
inductive Json where
  | null
  | bool (b : Bool)
  | num (n : Int)
  | str (s : String)
  | arr (elems : List Json)
  | obj (fields : List (String × Json))

/-- Lookup in a JSON object (`serde_json::Map::get`): first matching key. -/
def objGet : List (String × Json) → String → Option Json
  | [], _ => none
  | (k, v) :: rest, key => if k = key then some v else objGet rest key

/-- Insert into a JSON object (`serde_json::Map::insert`): replace the first
matching key in place, or append. -/
def objInsert : List (String × Json) → String → Json → List (String × Json)
  | [], key, v => [(key, v)]
  | (k, w) :: rest, key, v =>
      if k = key then (key, v) :: rest else (k, w) :: objInsert rest key v

/-- Remove from a JSON object (`serde_json::Map::remove`): drop the first
matching key. -/
def objRemove : List (String × Json) → String → List (String × Json)
  | [], _ => []
  | (k, w) :: rest, key => if k = key then rest else (k, w) :: objRemove rest key

/-- `Value::get(&str)`: `Some` only on objects containing the key. -/
def Json.get : Json → String → Option Json
  | Json.obj fields, key => objGet fields key
  | _, _ => none

/-- `Value::is_object`. -/
def Json.isObj : Json → Bool
  | Json.obj _ => true
  | _ => false

/-- `Value::as_str`. -/
def Json.asStr : Json → Option String
  | Json.str s => some s
  | _ => none

/-- `Value::as_array`. -/
def Json.asArr : Json → Option (List Json)
  | Json.arr elems => some elems
  | _ => none

/-- `Value::as_object`. -/
def Json.asObj : Json → Option (List (String × Json))
  | Json.obj fields => some fields
  | _ => none

/-- Read-only string indexing `value[key]` (`Index<&str> for Value`):
`Null` when the key is absent or `self` is not an object. -/
def Json.index (j : Json) (key : String) : Json :=
  (j.get key).getD Json.null

/-- Mutable string indexing `value[key] = ...` (`IndexMut<&str> for Value`):
on an object, insert/replace; `Null` is first treated as an empty object;
any other receiver aborts the process (modelled as `none`).  The entry is
created as `Null` when absent (`entry(key).or_insert(Null)`) and then
rewritten by the continuation `f`, which may itself abort. -/
def Json.modifyIdx : Json → String → (Json → Option Json) → Option Json
  | Json.obj fields, key, f =>
      match f ((objGet fields key).getD Json.null) with
      | some v => some (Json.obj (objInsert fields key v))
      | none => none
  | Json.null, key, f =>
      match f Json.null with
      | some v => some (Json.obj [(key, v)])
      | none => none
  | _, _, _ => none

/-- `value[key] = v` with a plain value on the right-hand side. -/
def Json.setIdx (j : Json) (key : String) (v : Json) : Option Json :=
  j.modifyIdx key (fun _ => some v)

/-- `Value::get_mut` chains used by `claude_mcp_remove`: rewrite the value
at `key` when `self` is an object containing it, otherwise leave `self`
unchanged and report `false` through the continuation result. -/
def Json.modifyKey (j : Json) (key : String) (f : Json → Json × Bool) : Json × Bool :=
  match j with
  | Json.obj fields =>
      match objGet fields key with
      | some v =>
          match f v with
          | (v', flag) => (Json.obj (objInsert fields key v'), flag)
      | none => (j, false)
  | _ => (j, false)

@[simp] theorem objGet_nil (key : String) : objGet [] key = none := rfl

theorem objGet_cons (k : String) (v : Json) (rest : List (String × Json)) (key : String) :
    objGet ((k, v) :: rest) key = if k = key then some v else objGet rest key := rfl

@[simp] theorem objGet_objInsert_self (l : List (String × Json)) (k : String) (v : Json) :
    objGet (objInsert l k v) k = some v := by
  induction l with
  | nil => simp [objInsert, objGet]
  | cons hd tl ih =>
      by_cases h : hd.1 = k
      · simp [objInsert, objGet, h]
      · simp [objInsert, objGet, h, ih]

theorem objGet_objInsert_ne (l : List (String × Json)) (k k' : String) (v : Json)
    (h : k' ≠ k) : objGet (objInsert l k v) k' = objGet l k' := by
  induction l with
  | nil => simp [objInsert, objGet, Ne.symm h]
  | cons hd tl ih =>
      obtain ⟨a, b⟩ := hd
      by_cases hk : a = k
      · subst hk
        simp [objInsert, objGet, Ne.symm h]
      · by_cases hk' : a = k'
        · simp [objInsert, objGet, hk, hk', h]
        · simp [objInsert, objGet, hk, hk', ih]

theorem objInsert_objInsert_self (l : List (String × Json)) (k : String) (v w : Json) :
    objInsert (objInsert l k v) k w = objInsert l k w := by
  induction l with
  | nil => simp [objInsert]
  | cons hd tl ih =>
      by_cases h : hd.1 = k
      · simp [objInsert, h]
      · simp [objInsert, h, ih]

theorem objGet_objRemove_ne (l : List (String × Json)) (k k' : String)
    (h : k' ≠ k) : objGet (objRemove l k) k' = objGet l k' := by
  induction l with
  | nil => simp [objRemove]
  | cons hd tl ih =>
      obtain ⟨a, b⟩ := hd
      by_cases hk : a = k
      · subst hk
        simp [objRemove, objGet, Ne.symm h]
      · simp [objRemove, objGet, hk, ih]

/-! ## The server codec (`ClaudeCodeServer`, `parse_server_config`, `server_to_json`) -/

/-- The Rust struct `ClaudeCodeServer`.  `env` stands for
`Option<HashMap<String, String>>`; it is kept as the association list in
document order (list equality implies `HashMap` equality). -/
structure ClaudeCodeServer where
  name : String
  «type» : String
  url : Option String
  command : Option String
  args : Option (List String)
  env : Option (List (String × String))
deriving DecidableEq

/-- The Rust struct `ClaudeCodeResponse`. -/
structure ClaudeCodeResponse where
  success : Bool
  message : String
deriving DecidableEq

/-- `parse_server_config`: best-effort decoding of one server entry.
Missing or non-string `type` defaults to `"stdio"`; fields of the wrong
shape become `none`; array/object elements of the wrong shape are dropped
(`filter_map` in the source). -/
def parse_server_config (name : String) (config : Json) : Except String ClaudeCodeServer :=
  let server_type := ((config.get "type").bind Json.asStr).getD "stdio"
  let url := (config.get "url").bind Json.asStr
  let command := (config.get "command").bind Json.asStr
  let args := ((config.get "args").bind Json.asArr).map
    (fun arr => arr.filterMap Json.asStr)
  let env := ((config.get "env").bind Json.asObj).map
    (fun o => o.filterMap (fun kv => (Json.asStr kv.2).map (fun s => (kv.1, s))))
  .ok { name := name, «type» := server_type, url := url, command := command,
        args := args, env := env }

/-- `server_to_json`: starts from `json!({"type": ...})` and conditionally
assigns `url`, `command`, `args`, `env`; every receiver of the assignments
is statically an object, so they are plain object inserts. -/
def server_to_json (server : ClaudeCodeServer) : Except String Json :=
  let fields := [("type", Json.str server.«type»)]
  let fields := match server.url with
    | some url => objInsert fields "url" (Json.str url)
    | none => fields
  let fields := match server.command with
    | some command => objInsert fields "command" (Json.str command)
    | none => fields
  let fields := match server.args with
    | some args => objInsert fields "args" (Json.arr (args.map Json.str))
    | none => fields
  let fields := match server.env with
    | some env => objInsert fields "env"
        (Json.obj (env.map (fun kv => (kv.1, Json.str kv.2))))
    | none => fields
  .ok (Json.obj fields)

/-! ## Scope sentinels -/

/-- `GLOBAL_WINDOWS_ID`. -/
def GLOBAL_WINDOWS_ID : String := "Global (Windows)"
/-- `GLOBAL_WSL_ID`. -/
def GLOBAL_WSL_ID : String := "Global (WSL)"
/-- `GLOBAL_PROJECT_ID` (legacy). -/
def GLOBAL_PROJECT_ID : String := "Global"

/-- `is_global_config`. -/
def is_global_config (working_dir : String) : Bool :=
  working_dir == GLOBAL_PROJECT_ID || working_dir == GLOBAL_WINDOWS_ID
    || working_dir == GLOBAL_WSL_ID

/-- `is_windows_global`. -/
def is_windows_global (working_dir : String) : Bool :=
  working_dir == GLOBAL_WINDOWS_ID

/-- `is_wsl_global`. -/
def is_wsl_global (working_dir : String) : Bool :=
  working_dir == GLOBAL_WSL_ID

/-- `is_linux_path`: a path that looks like a Linux/Unix path
(`path.starts_with('/')` in the source), modelled on the character list:
the first character is `/`. -/
def is_linux_path (path : String) : Bool :=
  path.data.head? == some '/'

/-! ## Listing and getting (`claude_mcp_list`, `claude_mcp_get`), document level -/

/-- The per-entry loop body of `claude_mcp_list`: parse each entry of a
`mcpServers` object, keeping the `Ok` results (which is all of them). -/
def pushParsed (servers_obj : List (String × Json)) : List ClaudeCodeServer :=
  servers_obj.filterMap (fun kv => (parse_server_config kv.1 kv.2).toOption)

/-- The `mcpServers` object that `claude_mcp_list` iterates over for a given
scope: the root `mcpServers` for a global scope, otherwise
`projects[working_dir].mcpServers`; `none` when any step of the
`if let Some` chain fails. -/
def scopeServersObj (working_dir : String) (config : Json) : Option (List (String × Json)) :=
  if is_global_config working_dir then
    (config.get "mcpServers").bind Json.asObj
  else
    (((config.get "projects").bind (fun p => p.get working_dir)).bind
      (fun pc => pc.get "mcpServers")).bind Json.asObj

/-- `claude_mcp_list`, applied to an already-loaded document: iterate the
scope object (or none at all) and collect the parsed entries. -/
def claude_mcp_list_doc (working_dir : String) (config : Json) : List ClaudeCodeServer :=
  match scopeServersObj working_dir config with
  | some servers_obj => pushParsed servers_obj
  | none => []

/-- `claude_mcp_get`, applied to an already-loaded document: first listed
entry with the requested name. -/
def claude_mcp_get_doc (name : String) (working_dir : String) (config : Json) :
    Except String ClaudeCodeServer :=
  match (claude_mcp_list_doc working_dir config).find? (fun server => server.name == name) with
  | some server => .ok server
  | none => .error ("Server \x27" ++ name ++ "\x27 not found")

/-! ## The document mutation of `claude_mcp_add`

`claude_mcp_add` mutates the loaded document in place between the read and
the write; the mutation is the guarded `IndexMut` sequence below.  `none`
models an aborted process (`IndexMut` on a non-object, non-null value). -/

/-- `if !config["mcpServers"].is_object() { config["mcpServers"] = json!({}) }` -/
def ensure_mcp_obj (config : Json) : Option Json :=
  if (config.index "mcpServers").isObj then some config
  else config.setIdx "mcpServers" (Json.obj [])

/-- `config["mcpServers"][&request.name] = server_json` -/
def set_global_server (name : String) (server_json : Json) (config : Json) : Option Json :=
  config.modifyIdx "mcpServers" (fun inner => inner.setIdx name server_json)

/-- `if !config["projects"].is_object() { config["projects"] = json!({}) }` -/
def ensure_projects_obj (config : Json) : Option Json :=
  if (config.index "projects").isObj then some config
  else config.setIdx "projects" (Json.obj [])

/-- `if !config["projects"][&working_dir].is_object()
      { config["projects"][&working_dir] = json!({"mcpServers": {}}) }` -/
def ensure_project_obj (working_dir : String) (config : Json) : Option Json :=
  if ((config.index "projects").index working_dir).isObj then some config
  else config.modifyIdx "projects"
    (fun p => p.setIdx working_dir (Json.obj [("mcpServers", Json.obj [])]))

/-- `if !config["projects"][&working_dir]["mcpServers"].is_object()
      { config["projects"][&working_dir]["mcpServers"] = json!({}) }` -/
def ensure_project_mcp_obj (working_dir : String) (config : Json) : Option Json :=
  if (((config.index "projects").index working_dir).index "mcpServers").isObj then
    some config
  else config.modifyIdx "projects"
    (fun p => p.modifyIdx working_dir
      (fun proj => proj.setIdx "mcpServers" (Json.obj [])))

/-- `config["projects"][&working_dir]["mcpServers"][&request.name] = server_json` -/
def set_project_server (working_dir : String) (name : String) (server_json : Json)
    (config : Json) : Option Json :=
  config.modifyIdx "projects"
    (fun p => p.modifyIdx working_dir
      (fun proj => proj.modifyIdx "mcpServers"
        (fun inner => inner.setIdx name server_json)))

/-- The in-memory update performed by `claude_mcp_add` between reading and
writing the config file: the statement sequence of the source, one stage
per guarded assignment. -/
def add_mutation (request : ClaudeCodeServer) (working_dir : String)
    (server_json : Json) (config : Json) : Option Json :=
  if is_global_config working_dir then
    (ensure_mcp_obj config).bind (set_global_server request.name server_json)
  else
    (ensure_projects_obj config).bind (fun c1 =>
    (ensure_project_obj working_dir c1).bind (fun c2 =>
    (ensure_project_mcp_obj working_dir c2).bind (fun c3 =>
    set_project_server working_dir request.name server_json c3)))

/-! ## The document mutation of `claude_mcp_remove` -/

/-- The in-memory update performed by `claude_mcp_remove` (a `get_mut`
chain, so it never aborts): the document with the entry removed, paired
with the `found` flag. -/
def remove_mutation (name : String) (working_dir : String) (config : Json) :
    Json × Bool :=
  if is_global_config working_dir then
    config.modifyKey "mcpServers" (fun mcp =>
      match mcp with
      | Json.obj servers =>
          if (objGet servers name).isSome then (Json.obj (objRemove servers name), true)
          else (mcp, false)
      | _ => (mcp, false))
  else
    config.modifyKey "projects" (fun p =>
      p.modifyKey working_dir (fun proj =>
        proj.modifyKey "mcpServers" (fun mcp =>
          match mcp with
          | Json.obj servers =>
              if (objGet servers name).isSome then (Json.obj (objRemove servers name), true)
              else (mcp, false)
          | _ => (mcp, false))))

/-! ## File-system state and the backup/restore discipline

Files are modelled by their parsed JSON content (`serde_json` round-trips
`to_string_pretty`/`from_str` exactly, so content equality is `Json`
equality).  `fs::copy` of a readable file always succeeds in the model;
the *write* step is the one with failure injection, matching the spec
scenario "the backup copy succeeds and the subsequent write step fails". -/

/-- A file system: association list from path to parsed JSON content. -/
structure FS where
  files : List (String × Json)

/-- `Path::exists`. -/
def FS.exists (fs : FS) (path : String) : Bool :=
  (objGet fs.files path).isSome

/-- `fs::read_to_string` followed by `serde_json::from_str`. -/
def FS.read (fs : FS) (path : String) : Option Json :=
  objGet fs.files path

/-- `fs::write` (successful case). -/
def FS.write (fs : FS) (path : String) (doc : Json) : FS :=
  ⟨objInsert fs.files path doc⟩

/-- `fs::remove_file`. -/
def FS.removeFile (fs : FS) (path : String) : FS :=
  ⟨objRemove fs.files path⟩

/-- The backup path: `config_path.with_extension("json.backup.<timestamp>")`;
on the fixed `....json` config paths this appends `.backup.<timestamp>`. -/
def backup_path_for (config_path : String) (timestamp : Nat) : String :=
  config_path ++ ".backup." ++ toString timestamp

/-- `create_backup`: fail when the file does not exist, otherwise copy it to
the timestamped backup path and return that path. -/
def create_backup (fs : FS) (config_path : String) (timestamp : Nat) :
    Except String (String × FS) :=
  match FS.read fs config_path with
  | some content =>
      let backup_path := backup_path_for config_path timestamp
      .ok (backup_path, fs.write backup_path content)
  | none => .error "Config file does not exist"

/-- `restore_backup`: fail when the backup does not exist, otherwise copy it
back over the config path. -/
def restore_backup (fs : FS) (config_path : String) (backup_path : String) :
    Except String Unit × FS :=
  match FS.read fs backup_path with
  | some content => (.ok (), fs.write config_path content)
  | none => (.error "Backup file does not exist", fs)

/-- `claude_mcp_add`, from the point where the config path has been
resolved.  `timestamp` feeds the backup name, `writeError` injects a
failure of the `fs::write` step (`some e` = the write fails with I/O error
`e`).  The result is `none` when the in-place mutation aborts the process,
otherwise the command result together with the final file system. -/
def claude_mcp_add_fs (request : ClaudeCodeServer) (working_dir : String)
    (claude_config_path : String) (timestamp : Nat) (writeError : Option String)
    (fs : FS) : Option (Except String ClaudeCodeResponse × FS) :=
  match server_to_json request with
  | .error e => some (.error e, fs)
  | .ok server_json =>
    let backupStep : Except String (Option String × FS) :=
      if fs.exists claude_config_path then
        match create_backup fs claude_config_path timestamp with
        | .ok (bp, fs') => .ok (some bp, fs')
        | .error e => .error e
      else .ok (none, fs)
    match backupStep with
    | .error e => some (.error e, fs)
    | .ok (backup_path, fs1) =>
      let config : Json :=
        match fs1.read claude_config_path with
        | some c => c
        | none => Json.obj []
      match add_mutation request working_dir server_json config with
      | none => none
      | some config' =>
        match writeError with
        | some e =>
            let fs2 :=
              match backup_path with
              | some bp => (restore_backup fs1 claude_config_path bp).2
              | none => fs1
            some (.error ("Failed to write Claude config: " ++ e), fs2)
        | none =>
            let fs2 := fs1.write claude_config_path config'
            let fs3 :=
              match backup_path with
              | some bp => fs2.removeFile bp
              | none => fs2
            let scope := if is_global_config working_dir then "user" else "project"
            some (.ok { success := true,
                        message := "Server \x27" ++ request.name ++ "\x27 added to "
                          ++ scope ++ " config successfully" }, fs3)

/-- `claude_mcp_remove`, from the point where the config path has been
resolved; same conventions as `claude_mcp_add_fs` (no abort is possible:
the removal uses `get_mut`, not `IndexMut`). -/
def claude_mcp_remove_fs (name : String) (working_dir : String)
    (claude_config_path : String) (timestamp : Nat) (writeError : Option String)
    (fs : FS) : Except String ClaudeCodeResponse × FS :=
  if fs.exists claude_config_path then
    match create_backup fs claude_config_path timestamp with
    | .error e => (.error e, fs)
    | .ok (backup_path, fs1) =>
      let config : Json :=
        match fs1.read claude_config_path with
        | some c => c
        | none => Json.obj []
      let scope := if is_global_config working_dir then "user" else "project"
      match remove_mutation name working_dir config with
      | (config', true) =>
          (match writeError with
           | some e =>
               let fs2 := (restore_backup fs1 claude_config_path backup_path).2
               (.error ("Failed to write Claude config: " ++ e), fs2)
           | none =>
               let fs2 := (fs1.write claude_config_path config').removeFile backup_path
               (.ok { success := true,
                      message := "Server \x27" ++ name ++ "\x27 removed from "
                        ++ scope ++ " config successfully" }, fs2))
      | (_, false) =>
          (.error ("Server \x27" ++ name ++ "\x27 not found in " ++ scope ++ " config"),
           fs1.removeFile backup_path)
  else
    (.error "Claude config file not found", fs)

/-! ## Path resolution (`get_claude_config_path` and friends)

The OS facilities used by the resolver are collected in `Env`:
`isWindows` models the compile-time `cfg(target_os = "windows")` branches,
`homeDir` models `dirs::home_dir()`, `pathExists` models `Path::exists`,
and `readDir` models `fs::read_dir` (returning the entries' full paths;
an unreadable directory behaves like an empty one, as the `if let Ok`
in the source skips it). -/

/-- The platform/OS environment of the Path Resolver. -/
structure Env where
  isWindows : Bool
  homeDir : Option String
  pathExists : String → Bool
  readDir : String → List String

/-- `Path::join`, with a uniform separator. -/
def pjoin (base : String) (name : String) : String :=
  base ++ "/" ++ name

/-- The fixed WSL distribution list of `find_wsl_claude_config`. -/
def wsl_distros : List String :=
  ["Ubuntu", "Ubuntu-22.04", "Ubuntu-24.04", "Ubuntu-20.04", "Debian",
   "kali-linux", "openSUSE-Leap-15.5"]

/-- The `\\wsl$\<distro>` root of one distribution. -/
def wsl_base_of (distro : String) : String :=
  "\\\\wsl$\\" ++ distro

/-- The inner loop of `find_wsl_claude_config`: scan the user homes of one
distribution for the config file. -/
def scan_homes (env : Env) (filename : String) : List String → Option String
  | [] => none
  | user_home :: rest =>
      let config_path := pjoin user_home filename
      if env.pathExists config_path then some config_path
      else scan_homes env filename rest

/-- The distro loop of `find_wsl_claude_config`: skip unreachable roots,
return the first config file found in a reachable root's `home` tree. -/
def find_wsl_go (env : Env) (filename : String) : List String → Option String
  | [] => none
  | distro :: rest =>
      let wsl_base := wsl_base_of distro
      if env.pathExists wsl_base then
        match scan_homes env filename (env.readDir (pjoin wsl_base "home")) with
        | some p => some p
        | none => find_wsl_go env filename rest
      else find_wsl_go env filename rest

/-- `find_wsl_claude_config` (only compiled on Windows; callers guard). -/
def find_wsl_claude_config (env : Env) (filename : String) : Option String :=
  find_wsl_go env filename wsl_distros

/-- `get_wsl_config_path`: the Windows version delegates to
`find_wsl_claude_config`; the non-Windows version is `None`. -/
def get_wsl_config_path (env : Env) : Option String :=
  if env.isWindows then find_wsl_claude_config env ".claude.json" else none

/-- `get_windows_config_path`: `~/.claude.json` in the native home. -/
def get_windows_config_path (env : Env) : Except String String :=
  match env.homeDir with
  | some home_dir => .ok (pjoin home_dir ".claude.json")
  | none => .error "Unable to find home directory"

/-- The shared tail of `get_claude_config_path` (legacy `"Global"` and all
fall-through cases): native path when it exists, else a discoverable WSL
config on Windows, else the native path for lazy creation. -/
def legacy_fallback (env : Env) : Except String String :=
  match get_windows_config_path env with
  | .error e => .error e
  | .ok native_path =>
      if env.pathExists native_path then .ok native_path
      else
        if env.isWindows then
          match get_wsl_config_path env with
          | some wsl_path => .ok wsl_path
          | none => .ok native_path
        else .ok native_path

/-- `get_claude_config_path`. -/
def get_claude_config_path (env : Env) (working_dir : Option String) :
    Except String String :=
  let wd := working_dir.getD ""
  if is_windows_global wd then get_windows_config_path env
  else if is_wsl_global wd then
    (if env.isWindows then
      match get_wsl_config_path env with
      | some wsl_path => .ok wsl_path
      | none => .error "WSL Claude config not found"
    else .error "WSL is only available on Windows")
  else
    if env.isWindows && !wd.isEmpty && !is_global_config wd then
      (if is_linux_path wd then
        match get_wsl_config_path env with
        | some wsl_path => .ok wsl_path
        | none => legacy_fallback env
      else get_windows_config_path env)
    else legacy_fallback env

/-! ## Scope listing (`claude_list_projects`) -/

/-- `get_projects_from_config`: the keys of the `projects` object of the
document at `config_path`; empty on a missing/unreadable/shapeless file. -/
def get_projects_from_config (fs : FS) (config_path : String) : List String :=
  match fs.read config_path with
  | none => []
  | some config =>
      match (config.get "projects").bind Json.asObj with
      | some projects_map => projects_map.map Prod.fst
      | none => []

/-- The project paths contributed by the native document. -/
def native_project_paths (env : Env) (fs : FS) : List String :=
  match get_windows_config_path env with
  | .ok windows_path =>
      if fs.exists windows_path then get_projects_from_config fs windows_path else []
  | .error _ => []

/-- The project paths contributed by the WSL document (Windows only). -/
def wsl_project_paths (env : Env) (fs : FS) : List String :=
  if env.isWindows then
    match get_wsl_config_path env with
    | some wsl_path => get_projects_from_config fs wsl_path
    | none => []
  else []

/-- `claude_list_projects`: the global sentinels followed by the sorted,
deduplicated union of the project keys of every discovered document.  The
Rust `HashSet` + `Vec::sort` pipeline is modelled by `dedup` +
`insertionSort`: both produce the unique ascending enumeration of the
union. -/
def claude_list_projects (env : Env) (fs : FS) : List String :=
  let globals1 := if (get_windows_config_path env).isOk then [GLOBAL_WINDOWS_ID] else []
  let globals2 :=
    if env.isWindows then
      match get_wsl_config_path env with
      | some _ => [GLOBAL_WSL_ID]
      | none => []
    else []
  let sorted_paths := List.insertionSort (· ≤ ·)
    ((native_project_paths env fs ++ wsl_project_paths env fs).dedup)
  globals1 ++ globals2 ++ sorted_paths

/-! ## Derived definitions used by the theorems -/

/-- The document-level core of `claude_mcp_add`: serialize the request and
apply the in-place mutation (the I/O around it is `claude_mcp_add_fs`). -/
def claude_mcp_add_doc (request : ClaudeCodeServer) (working_dir : String)
    (config : Json) : Option Json :=
  match server_to_json request with
  | .ok server_json => add_mutation request working_dir server_json config
  | .error _ => none

/-- The object stored under key `k`, defaulting to the empty object — the
base map that `claude_mcp_add` extends (a present non-object value is
discarded and replaced by `{}` by the guarded assignments). -/
def oldObj (l : List (String × Json)) (k : String) : List (String × Json) :=
  match objGet l k with
  | some (Json.obj m) => m
  | _ => []

/-- The project object stored under `wd` in a `projects` map, defaulting to
the freshly created `{"mcpServers": {}}` when absent or not an object. -/
def projOf (P : List (String × Json)) (wd : String) : List (String × Json) :=
  match objGet P wd with
  | some (Json.obj proj) => proj
  | _ => [("mcpServers", Json.obj [])]

/-- The project object that `claude_mcp_add` extends for a project scope. -/
def projBase (fields : List (String × Json)) (wd : String) : List (String × Json) :=
  projOf (oldObj fields "projects") wd

/-- The candidate config paths that `find_wsl_claude_config` probes, in
enumeration order: for each reachable distribution root, each user home
joined with the filename. -/
def wsl_candidate_paths (env : Env) (filename : String) : List String :=
  (wsl_distros.filter (fun d => env.pathExists (wsl_base_of d))).flatMap
    (fun d => (env.readDir (pjoin (wsl_base_of d) "home")).map
      (fun user_home => pjoin user_home filename))

/-! ## Codec lemmas -/

theorem filterMap_asStr_map_str (l : List String) :
    (l.map Json.str).filterMap Json.asStr = l := by
  induction l with
  | nil => rfl
  | cons hd tl ih =>
      show hd :: (tl.map Json.str).filterMap Json.asStr = hd :: tl
      rw [ih]

theorem filterMap_env_roundtrip (l : List (String × String)) :
    (l.map (fun kv => (kv.1, Json.str kv.2))).filterMap
      (fun kv => (Json.asStr kv.2).map (fun s => (kv.1, s))) = l := by
  induction l with
  | nil => rfl
  | cons hd tl ih =>
      show hd :: (tl.map (fun kv => (kv.1, Json.str kv.2))).filterMap
        (fun kv => (Json.asStr kv.2).map (fun s => (kv.1, s))) = hd :: tl
      rw [ih]

theorem asStr_str (s : String) : Json.asStr (Json.str s) = some s := rfl

theorem asArr_arr (l : List Json) : Json.asArr (Json.arr l) = some l := rfl

theorem asObj_obj (l : List (String × Json)) : Json.asObj (Json.obj l) = some l := rfl

/-- `server_to_json` never fails. -/
theorem server_to_json_ok (s : ClaudeCodeServer) : ∃ j, server_to_json s = .ok j :=
  ⟨_, rfl⟩

/-- Decoding the encoding of a server (keyed by its own name) gives the
server back, field for field. -/
theorem parse_server_to_json (s : ClaudeCodeServer) (j : Json)
    (hj : server_to_json s = .ok j) :
    parse_server_config s.name j = .ok s := by
  obtain ⟨name, ty, url, command, args, env⟩ := s
  cases url <;> cases command <;> cases args <;> cases env <;>
    · simp only [server_to_json, Except.ok.injEq] at hj
      subst hj
      simp [parse_server_config, Json.get, objInsert, objGet, asStr_str, asArr_arr,
        asObj_obj, filterMap_asStr_map_str, filterMap_env_roundtrip,
        -List.filterMap_map]

/-! ## Characterizing the `claude_mcp_add` document mutation -/

/-- Re-inserting the value already stored at a key leaves the object
unchanged. -/
theorem objInsert_get_self (l : List (String × Json)) (k : String) (v : Json)
    (h : objGet l k = some v) : objInsert l k v = l := by
  induction l with
  | nil => simp [objGet] at h
  | cons hd tl ih =>
      obtain ⟨a, b⟩ := hd
      by_cases hk : a = k
      · subst hk
        simp [objGet] at h
        simp [objInsert, h]
      · simp [objGet, hk] at h
        simp [objInsert, hk, ih h]

theorem ensure_mcp_obj_eq (fields : List (String × Json)) :
    ensure_mcp_obj (Json.obj fields)
      = some (Json.obj (objInsert fields "mcpServers"
          (Json.obj (oldObj fields "mcpServers")))) := by
  cases hm : objGet fields "mcpServers" with
  | none =>
      simp [ensure_mcp_obj, Json.index, Json.get, Json.isObj, Json.setIdx,
        Json.modifyIdx, oldObj, hm]
  | some v =>
      cases v <;>
        simp [ensure_mcp_obj, Json.index, Json.get, Json.isObj, Json.setIdx,
          Json.modifyIdx, oldObj, hm, objInsert_get_self _ _ _ hm]

theorem set_global_server_eq (name : String) (sj : Json)
    (fields P : List (String × Json)) :
    set_global_server name sj (Json.obj (objInsert fields "mcpServers" (Json.obj P)))
      = some (Json.obj (objInsert fields "mcpServers"
          (Json.obj (objInsert P name sj)))) := by
  simp [set_global_server, Json.modifyIdx, Json.setIdx, objGet_objInsert_self,
    objInsert_objInsert_self]

theorem ensure_projects_obj_eq (fields : List (String × Json)) :
    ensure_projects_obj (Json.obj fields)
      = some (Json.obj (objInsert fields "projects"
          (Json.obj (oldObj fields "projects")))) := by
  cases hp : objGet fields "projects" with
  | none =>
      simp [ensure_projects_obj, Json.index, Json.get, Json.isObj, Json.setIdx,
        Json.modifyIdx, oldObj, hp]
  | some v =>
      cases v <;>
        simp [ensure_projects_obj, Json.index, Json.get, Json.isObj, Json.setIdx,
          Json.modifyIdx, oldObj, hp, objInsert_get_self _ _ _ hp]

theorem ensure_project_obj_eq (wd : String) (fields P : List (String × Json)) :
    ensure_project_obj wd (Json.obj (objInsert fields "projects" (Json.obj P)))
      = some (Json.obj (objInsert fields "projects"
          (Json.obj (objInsert P wd (Json.obj (projOf P wd)))))) := by
  cases hw : objGet P wd with
  | none =>
      simp [ensure_project_obj, Json.index, Json.get, Json.isObj, Json.setIdx,
        Json.modifyIdx, projOf, hw, objGet_objInsert_self, objInsert_objInsert_self]
  | some v =>
      cases v <;>
        simp [ensure_project_obj, Json.index, Json.get, Json.isObj, Json.setIdx,
          Json.modifyIdx, projOf, hw, objGet_objInsert_self, objInsert_objInsert_self,
          objInsert_get_self _ _ _ hw]

theorem ensure_project_mcp_obj_eq (wd : String)
    (fields P Q : List (String × Json)) :
    ensure_project_mcp_obj wd (Json.obj (objInsert fields "projects"
        (Json.obj (objInsert P wd (Json.obj Q)))))
      = some (Json.obj (objInsert fields "projects"
          (Json.obj (objInsert P wd (Json.obj (objInsert Q "mcpServers"
            (Json.obj (oldObj Q "mcpServers")))))))) := by
  cases hq : objGet Q "mcpServers" with
  | none =>
      simp [ensure_project_mcp_obj, Json.index, Json.get, Json.isObj, Json.setIdx,
        Json.modifyIdx, oldObj, hq, objGet_objInsert_self, objInsert_objInsert_self]
  | some v =>
      cases v <;>
        simp [ensure_project_mcp_obj, Json.index, Json.get, Json.isObj, Json.setIdx,
          Json.modifyIdx, oldObj, hq, objGet_objInsert_self, objInsert_objInsert_self,
          objInsert_get_self _ _ _ hq]

theorem set_project_server_eq (wd name : String) (sj : Json)
    (fields P Q R : List (String × Json)) :
    set_project_server wd name sj (Json.obj (objInsert fields "projects"
        (Json.obj (objInsert P wd (Json.obj (objInsert Q "mcpServers" (Json.obj R)))))))
      = some (Json.obj (objInsert fields "projects"
          (Json.obj (objInsert P wd (Json.obj (objInsert Q "mcpServers"
            (Json.obj (objInsert R name sj)))))))) := by
  simp [set_project_server, Json.modifyIdx, Json.setIdx, objGet_objInsert_self,
    objInsert_objInsert_self]

/-- Global scope: the mutation rewrites exactly the root `mcpServers` key,
inserting the serialized entry into the stored map (or into a fresh map
when the stored value is absent or not an object). -/
theorem add_mutation_global (req : ClaudeCodeServer) (wd : String) (sj : Json)
    (fields : List (String × Json)) (hglob : is_global_config wd = true) :
    add_mutation req wd sj (Json.obj fields)
      = some (Json.obj (objInsert fields "mcpServers"
          (Json.obj (objInsert (oldObj fields "mcpServers") req.name sj)))) := by
  unfold add_mutation
  rw [if_pos hglob, ensure_mcp_obj_eq]
  simp only [Option.bind]
  rw [set_global_server_eq]

/-- Project scope: the mutation rewrites exactly
`projects[working_dir].mcpServers`, inserting the serialized entry into the
stored map, creating each level that is absent or not an object. -/
theorem add_mutation_project (req : ClaudeCodeServer) (wd : String) (sj : Json)
    (fields : List (String × Json)) (hglob : is_global_config wd = false) :
    add_mutation req wd sj (Json.obj fields)
      = some (Json.obj (objInsert fields "projects" (Json.obj (objInsert
          (oldObj fields "projects") wd (Json.obj (objInsert (projBase fields wd)
            "mcpServers" (Json.obj (objInsert (oldObj (projBase fields wd) "mcpServers")
              req.name sj)))))))) := by
  unfold add_mutation
  rw [if_neg (by simp [hglob]), ensure_projects_obj_eq]
  simp only [Option.bind]
  rw [ensure_project_obj_eq]
  simp only [Option.bind]
  rw [ensure_project_mcp_obj_eq]
  simp only [Option.bind]
  rw [set_project_server_eq]
  simp only [projBase]

/-- A `Null` document (a file containing `null`) behaves like an empty
object under the guarded assignments. -/
theorem add_mutation_null (req : ClaudeCodeServer) (wd : String) (sj : Json) :
    add_mutation req wd sj Json.null = add_mutation req wd sj (Json.obj []) := by
  unfold add_mutation
  cases hg : is_global_config wd <;> rfl

/-- The mutation aborts exactly on non-object, non-null documents. -/
theorem add_mutation_abort (req : ClaudeCodeServer) (wd : String) (sj : Json)
    (D : Json) (hD : D.isObj = false) (hDn : D ≠ Json.null) :
    add_mutation req wd sj D = none := by
  cases D with
  | null => exact absurd rfl hDn
  | obj fields => simp [Json.isObj] at hD
  | bool b =>
      unfold add_mutation
      cases hg : is_global_config wd <;> rfl
  | num n =>
      unfold add_mutation
      cases hg : is_global_config wd <;> rfl
  | str s =>
      unfold add_mutation
      cases hg : is_global_config wd <;> rfl
  | arr a =>
      unfold add_mutation
      cases hg : is_global_config wd <;> rfl

/-- The server that `parse_server_config` always succeeds with. -/
def parsedServer (name : String) (config : Json) : ClaudeCodeServer :=
  { name := name
  , «type» := ((config.get "type").bind Json.asStr).getD "stdio"
  , url := (config.get "url").bind Json.asStr
  , command := (config.get "command").bind Json.asStr
  , args := ((config.get "args").bind Json.asArr).map (fun arr => arr.filterMap Json.asStr)
  , env := ((config.get "env").bind Json.asObj).map
      (fun o => o.filterMap (fun kv => (Json.asStr kv.2).map (fun s => (kv.1, s)))) }

theorem parse_eq_ok (name : String) (config : Json) :
    parse_server_config name config = .ok (parsedServer name config) := rfl

theorem pushParsed_nil : pushParsed [] = [] := rfl

theorem pushParsed_cons (k : String) (v : Json) (rest : List (String × Json)) :
    pushParsed ((k, v) :: rest) = parsedServer k v :: pushParsed rest := rfl

/-- Looking up the just-inserted name among the parsed entries of the
updated map finds exactly the decoding of the inserted value. -/
theorem find?_pushParsed_objInsert (servers : List (String × Json)) (n : String) (sj : Json) :
    (pushParsed (objInsert servers n sj)).find? (fun s => s.name == n)
      = some (parsedServer n sj) := by
  induction servers with
  | nil =>
      rw [show objInsert [] n sj = [(n, sj)] from rfl, pushParsed_cons, pushParsed_nil]
      exact List.find?_cons_of_pos _ (by simp [parsedServer])
  | cons hd tl ih =>
      obtain ⟨k, v⟩ := hd
      by_cases hk : k = n
      · subst hk
        have h1 : objInsert ((k, v) :: tl) k sj = (k, sj) :: tl := by
          simp [objInsert]
        rw [h1, pushParsed_cons]
        exact List.find?_cons_of_pos _ (by simp [parsedServer])
      · have h1 : objInsert ((k, v) :: tl) n sj = (k, v) :: objInsert tl n sj := by
          simp [objInsert, hk]
        rw [h1, pushParsed_cons, List.find?_cons_of_neg _ (by simp [parsedServer, hk]), ih]

/-! ## C1: add-then-get round trip -/

theorem scopeServersObj_global (wd : String) (hg : is_global_config wd = true)
    (fields N : List (String × Json)) :
    scopeServersObj wd (Json.obj (objInsert fields "mcpServers" (Json.obj N)))
      = some N := by
  simp [scopeServersObj, hg, Json.get, Json.asObj, objGet_objInsert_self]

theorem scopeServersObj_project (wd : String) (hg : is_global_config wd = false)
    (fields P B N : List (String × Json)) :
    scopeServersObj wd (Json.obj (objInsert fields "projects" (Json.obj (objInsert P wd
        (Json.obj (objInsert B "mcpServers" (Json.obj N)))))))
      = some N := by
  simp [scopeServersObj, hg, Json.get, Json.asObj, objGet_objInsert_self]

theorem get_after_add_obj (e : ClaudeCodeServer) (wd : String) (sj : Json)
    (fields : List (String × Json)) (hsj : server_to_json e = .ok sj) (D' : Json)
    (h : add_mutation e wd sj (Json.obj fields) = some D') :
    claude_mcp_get_doc e.name wd D' = .ok e := by
  have hps : parsedServer e.name sj = e := by
    have hp := parse_server_to_json e sj hsj
    rw [parse_eq_ok] at hp
    exact Except.ok.inj hp
  cases hg : is_global_config wd with
  | true =>
      rw [add_mutation_global e wd sj fields hg, Option.some.injEq] at h
      subst h
      rw [claude_mcp_get_doc, claude_mcp_list_doc, scopeServersObj_global wd hg,
        find?_pushParsed_objInsert, hps]
  | false =>
      rw [add_mutation_project e wd sj fields hg, Option.some.injEq] at h
      subst h
      rw [claude_mcp_get_doc, claude_mcp_list_doc, scopeServersObj_project wd hg,
        find?_pushParsed_objInsert, hps]

/-- C1: for every server entry `e` (well-formed by construction of
`ClaudeCodeServer`) and every scope identifier `wd`, if adding `e` to a
document `D` via the `claude_mcp_add` mutation succeeds with result `D'`,
then `claude_mcp_get` on `D'` for `e.name` in the same scope returns an
entry field-wise equal to `e` — name, type, url, command, args and env all
survive the `server_to_json`/`parse_server_config` round trip. -/
theorem add_then_get_roundtrip (e : ClaudeCodeServer) (wd : String) (D D' : Json)
    (h : claude_mcp_add_doc e wd D = some D') :
    claude_mcp_get_doc e.name wd D' = .ok e := by
  obtain ⟨sj, hsj⟩ := server_to_json_ok e
  simp only [claude_mcp_add_doc, hsj] at h
  cases D with
  | obj fields => exact get_after_add_obj e wd sj fields hsj D' h
  | null =>
      rw [add_mutation_null] at h
      exact get_after_add_obj e wd sj [] hsj D' h
  | bool b =>
      rw [add_mutation_abort e wd sj (Json.bool b) rfl (fun hh => Json.noConfusion hh)] at h
      exact Option.noConfusion h
  | num n =>
      rw [add_mutation_abort e wd sj (Json.num n) rfl (fun hh => Json.noConfusion hh)] at h
      exact Option.noConfusion h
  | str s =>
      rw [add_mutation_abort e wd sj (Json.str s) rfl (fun hh => Json.noConfusion hh)] at h
      exact Option.noConfusion h
  | arr a =>
      rw [add_mutation_abort e wd sj (Json.arr a) rfl (fun hh => Json.noConfusion hh)] at h
      exact Option.noConfusion h

/-- Witness for C1: the spec scenario — adding the `sentry` http entry to an
empty document in the legacy global scope, then getting it back. -/
theorem add_then_get_roundtrip_witness :
    claude_mcp_get_doc "sentry" "Global"
      (Json.obj [("mcpServers", Json.obj [("sentry",
        Json.obj [("type", Json.str "http"),
                  ("url", Json.str "https://mcp.sentry.dev/mcp")])])])
      = .ok { name := "sentry", «type» := "http",
              url := some "https://mcp.sentry.dev/mcp",
              command := none, args := none, env := none } :=
  add_then_get_roundtrip
    { name := "sentry", «type» := "http", url := some "https://mcp.sentry.dev/mcp",
      command := none, args := none, env := none }
    "Global" (Json.obj [])
    (Json.obj [("mcpServers", Json.obj [("sentry",
      Json.obj [("type", Json.str "http"),
                ("url", Json.str "https://mcp.sentry.dev/mcp")])])])
    (by rfl)

/-! ## C3: adding touches only the scope's map -/

/-- C3: on a well-formed document (its `mcpServers` / `projects` subtrees,
where present, are objects — arbitrary unknown keys are allowed anywhere),
the `claude_mcp_add` mutation produces exactly the original document with
the one entry upserted into the appropriate `mcpServers` map: every other
top-level key, every sibling project key and every sibling key inside the
touched project object reads back unchanged. -/
theorem add_frame_preservation (e : ClaudeCodeServer) (wd : String) (sj : Json)
    (fields : List (String × Json)) (hsj : server_to_json e = .ok sj) :
    ((is_global_config wd = true) → ∀ servers,
      (objGet fields "mcpServers" = some (Json.obj servers) ∨
        (objGet fields "mcpServers" = none ∧ servers = [])) →
      claude_mcp_add_doc e wd (Json.obj fields)
        = some (Json.obj (objInsert fields "mcpServers"
            (Json.obj (objInsert servers e.name sj)))) ∧
      ∀ k, k ≠ "mcpServers" →
        objGet (objInsert fields "mcpServers" (Json.obj (objInsert servers e.name sj))) k
          = objGet fields k)
    ∧ ((is_global_config wd = false) → ∀ projs proj servers,
      (objGet fields "projects" = some (Json.obj projs) ∨
        (objGet fields "projects" = none ∧ projs = [])) →
      (objGet projs wd = some (Json.obj proj) ∨
        (objGet projs wd = none ∧ proj = [])) →
      (objGet proj "mcpServers" = some (Json.obj servers) ∨
        (objGet proj "mcpServers" = none ∧ servers = [])) →
      claude_mcp_add_doc e wd (Json.obj fields)
        = some (Json.obj (objInsert fields "projects" (Json.obj (objInsert projs wd
            (Json.obj (objInsert proj "mcpServers"
              (Json.obj (objInsert servers e.name sj)))))))) ∧
      (∀ k, k ≠ "projects" →
        objGet (objInsert fields "projects" (Json.obj (objInsert projs wd
          (Json.obj (objInsert proj "mcpServers"
            (Json.obj (objInsert servers e.name sj))))))) k = objGet fields k) ∧
      (∀ q, q ≠ wd →
        objGet (objInsert projs wd (Json.obj (objInsert proj "mcpServers"
          (Json.obj (objInsert servers e.name sj))))) q = objGet projs q) ∧
      (∀ r, r ≠ "mcpServers" →
        objGet (objInsert proj "mcpServers" (Json.obj (objInsert servers e.name sj))) r
          = objGet proj r)) := by
  constructor
  · intro hg servers hwf
    refine ⟨?_, fun k hk => objGet_objInsert_ne _ _ _ _ hk⟩
    simp only [claude_mcp_add_doc, hsj]
    rw [add_mutation_global e wd sj fields hg]
    rcases hwf with hm | ⟨hm, rfl⟩ <;> simp [oldObj, hm]
  · intro hg projs proj servers hp hw hs
    refine ⟨?_, fun k hk => objGet_objInsert_ne _ _ _ _ hk,
      fun q hq => objGet_objInsert_ne _ _ _ _ hq,
      fun r hr => objGet_objInsert_ne _ _ _ _ hr⟩
    simp only [claude_mcp_add_doc, hsj]
    rw [add_mutation_project e wd sj fields hg]
    rcases hp with hp | ⟨hp, rfl⟩ <;> rcases hw with hw | ⟨hw, rfl⟩ <;>
      rcases hs with hs | ⟨hs, rfl⟩ <;>
        simp_all [projBase, projOf, oldObj, objGet, objInsert]

/-- Witness for C3 (global part): adding `airtable` next to an unrelated
top-level key leaves that key untouched. -/
theorem add_frame_preservation_witness :
    claude_mcp_add_doc
        { name := "airtable", «type» := "stdio", url := none, command := some "npx",
          args := some ["-y", "airtable-mcp-server"],
          env := some [("AIRTABLE_API_KEY", "KEY")] }
        "Global"
        (Json.obj [("otherKey", Json.str "keep"), ("mcpServers", Json.obj [])])
      = some (Json.obj [("otherKey", Json.str "keep"), ("mcpServers", Json.obj
          [("airtable", Json.obj [("type", Json.str "stdio"),
            ("command", Json.str "npx"),
            ("args", Json.arr [Json.str "-y", Json.str "airtable-mcp-server"]),
            ("env", Json.obj [("AIRTABLE_API_KEY", Json.str "KEY")])])])])
    ∧ objGet [("otherKey", Json.str "keep"), ("mcpServers", Json.obj
          [("airtable", Json.obj [("type", Json.str "stdio"),
            ("command", Json.str "npx"),
            ("args", Json.arr [Json.str "-y", Json.str "airtable-mcp-server"]),
            ("env", Json.obj [("AIRTABLE_API_KEY", Json.str "KEY")])])])]
        "otherKey"
      = objGet [("otherKey", Json.str "keep"), ("mcpServers", Json.obj [])] "otherKey" := by
  have h := (add_frame_preservation
    { name := "airtable", «type» := "stdio", url := none, command := some "npx",
      args := some ["-y", "airtable-mcp-server"],
      env := some [("AIRTABLE_API_KEY", "KEY")] }
    "Global"
    (Json.obj [("type", Json.str "stdio"), ("command", Json.str "npx"),
      ("args", Json.arr [Json.str "-y", Json.str "airtable-mcp-server"]),
      ("env", Json.obj [("AIRTABLE_API_KEY", Json.str "KEY")])])
    [("otherKey", Json.str "keep"), ("mcpServers", Json.obj [])]
    (by rfl)).1 (by rfl) [] (Or.inl (by rfl))
  exact ⟨h.1, h.2 "otherKey" (by decide)⟩

/-! ## C8 and C10: best-effort, total parsing -/

theorem pushParsed_length (l : List (String × Json)) :
    (pushParsed l).length = l.length := by
  induction l with
  | nil => rfl
  | cons hd tl ih =>
      obtain ⟨k, v⟩ := hd
      rw [pushParsed_cons]
      simp [ih]

/-- C8: parsing a server entry is best-effort — a missing or non-string
`type` yields the default `"stdio"`; a `url`, `command`, `args` or `env`
value of the wrong shape is treated as absent; and listing never drops an
entry: the parsed list carries exactly the keys of the stored map, whatever
the shapes of the values. -/
theorem parse_best_effort :
    (∀ name config, ((config : Json).get "type").bind Json.asStr = none →
      ∃ s, parse_server_config name config = .ok s ∧ s.«type» = "stdio")
    ∧ (∀ name config v, (config : Json).get "url" = some v → v.asStr = none →
      ∃ s, parse_server_config name config = .ok s ∧ s.url = none)
    ∧ (∀ name config v, (config : Json).get "command" = some v → v.asStr = none →
      ∃ s, parse_server_config name config = .ok s ∧ s.command = none)
    ∧ (∀ name config v, (config : Json).get "args" = some v → v.asArr = none →
      ∃ s, parse_server_config name config = .ok s ∧ s.args = none)
    ∧ (∀ name config v, (config : Json).get "env" = some v → v.asObj = none →
      ∃ s, parse_server_config name config = .ok s ∧ s.env = none)
    ∧ (∀ servers_obj, (pushParsed servers_obj).map (fun s => s.name)
        = servers_obj.map Prod.fst) := by
  refine ⟨?_, ?_, ?_, ?_, ?_, ?_⟩
  · intro name config h
    exact ⟨_, parse_eq_ok name config, by simp [parsedServer, h]⟩
  · intro name config v hv ha
    exact ⟨_, parse_eq_ok name config, by simp [parsedServer, hv, ha]⟩
  · intro name config v hv ha
    exact ⟨_, parse_eq_ok name config, by simp [parsedServer, hv, ha]⟩
  · intro name config v hv ha
    exact ⟨_, parse_eq_ok name config, by simp [parsedServer, hv, ha]⟩
  · intro name config v hv ha
    exact ⟨_, parse_eq_ok name config, by simp [parsedServer, hv, ha]⟩
  · intro l
    induction l with
    | nil => rfl
    | cons hd tl ih =>
        obtain ⟨k, v⟩ := hd
        rw [pushParsed_cons]
        simp [parsedServer, ih]

/-- Witness for C8: an entry whose every field has the wrong JSON shape
still parses, with the default kind and absent optional fields. -/
theorem parse_best_effort_witness :
    (∃ s, parse_server_config "m"
        (Json.obj [("type", Json.num 1), ("url", Json.arr []),
          ("command", Json.bool true), ("args", Json.str "x"), ("env", Json.num 0)])
      = .ok s ∧ s.«type» = "stdio")
    ∧ (∃ s, parse_server_config "m"
        (Json.obj [("type", Json.num 1), ("url", Json.arr []),
          ("command", Json.bool true), ("args", Json.str "x"), ("env", Json.num 0)])
      = .ok s ∧ s.url = none)
    ∧ (∃ s, parse_server_config "m"
        (Json.obj [("type", Json.num 1), ("url", Json.arr []),
          ("command", Json.bool true), ("args", Json.str "x"), ("env", Json.num 0)])
      = .ok s ∧ s.args = none) :=
  ⟨parse_best_effort.1 "m" _ (by rfl),
   parse_best_effort.2.1 "m" _ (Json.arr []) (by rfl) (by rfl),
   parse_best_effort.2.2.2.1 "m" _ (Json.str "x") (by rfl) (by rfl)⟩

/-- C10: `parse_server_config` is total (it never returns an error for any
input JSON value), and consequently the per-entry `Ok`-filter of
`claude_mcp_list` discards nothing: the listing has exactly one entry per
key of the scope's `mcpServers` map, whatever the shapes of the stored
values. -/
theorem parse_total_list_complete :
    (∀ name config, (parse_server_config name config).isOk = true)
    ∧ (∀ wd config, (claude_mcp_list_doc wd config).length
        = ((scopeServersObj wd config).getD []).length) := by
  constructor
  · intro name config
    rw [parse_eq_ok]
    rfl
  · intro wd config
    cases h : scopeServersObj wd config <;>
      simp [claude_mcp_list_doc, h, pushParsed_length]

/-! ## C2: backup/restore around the write step -/

theorem backup_path_ne (p : String) (t : Nat) : backup_path_for p t ≠ p := by
  intro h
  have hl : (backup_path_for p t).length = p.length := by rw [h]
  rw [backup_path_for, String.length_append, String.length_append] at hl
  have h8 : ".backup.".length = 8 := rfl
  omega

theorem objGet_none_of_not_mem (l : List (String × Json)) (k : String)
    (h : k ∉ l.map Prod.fst) : objGet l k = none := by
  induction l with
  | nil => rfl
  | cons hd tl ih =>
      obtain ⟨a, b⟩ := hd
      simp only [List.map_cons, List.mem_cons] at h
      push_neg at h
      simp [objGet, Ne.symm h.1, ih h.2]

theorem objGet_objRemove_self (l : List (String × Json)) (k : String)
    (h : (l.map Prod.fst).Nodup) : objGet (objRemove l k) k = none := by
  induction l with
  | nil => rfl
  | cons hd tl ih =>
      obtain ⟨a, b⟩ := hd
      simp only [List.map_cons, List.nodup_cons] at h
      by_cases hk : a = k
      · subst hk
        simp [objRemove, objGet_none_of_not_mem tl a h.1]
      · simp [objRemove, objGet, hk, ih h.2]

theorem objInsert_map_fst (l : List (String × Json)) (k : String) (v : Json) :
    (objInsert l k v).map Prod.fst
      = if k ∈ l.map Prod.fst then l.map Prod.fst else l.map Prod.fst ++ [k] := by
  induction l with
  | nil => simp [objInsert]
  | cons hd tl ih =>
      obtain ⟨a, b⟩ := hd
      by_cases hk : a = k
      · subst hk
        simp [objInsert]
      · by_cases hm : k ∈ tl.map Prod.fst <;>
          simp [objInsert, hk, Ne.symm hk, hm, ih]

theorem objInsert_keys_nodup (l : List (String × Json)) (k : String) (v : Json)
    (h : (l.map Prod.fst).Nodup) : ((objInsert l k v).map Prod.fst).Nodup := by
  rw [objInsert_map_fst]
  by_cases hm : k ∈ l.map Prod.fst
  · simp [hm, h]
  · simp [hm, h, List.nodup_append]

/-- C2: for either mutating command, once the config path is resolved and a
backup of the existing document has been taken, an injected failure of the
`fs::write` step leaves the on-disk document equal to the pre-call document
(the backup is copied back over the original) and the call returns the
wrapped write error; with no failure injected, the command succeeds and the
backup file is gone afterwards.  The add part assumes only that the in-place
mutation does not abort; the remove part assumes only that the entry is
present (otherwise no write is attempted at all). -/
theorem mutation_backup_restore
    (req : ClaudeCodeServer) (name wd path : String) (ts : Nat) (e : String)
    (fs : FS) (doc : Json)
    (hnodup : (fs.files.map Prod.fst).Nodup)
    (hdoc : fs.read path = some doc) :
    (∀ sj doc', server_to_json req = .ok sj →
      add_mutation req wd sj doc = some doc' →
      (∃ fsE, claude_mcp_add_fs req wd path ts (some e) fs
          = some (.error ("Failed to write Claude config: " ++ e), fsE)
        ∧ fsE.read path = some doc)
      ∧ (∃ resp fsS, claude_mcp_add_fs req wd path ts none fs = some (.ok resp, fsS)
        ∧ fsS.read (backup_path_for path ts) = none))
    ∧ (∀ rdoc, remove_mutation name wd doc = (rdoc, true) →
      (∃ fsE, claude_mcp_remove_fs name wd path ts (some e) fs
          = (.error ("Failed to write Claude config: " ++ e), fsE)
        ∧ fsE.read path = some doc)
      ∧ (∃ resp fsS, claude_mcp_remove_fs name wd path ts none fs = (.ok resp, fsS)
        ∧ fsS.read (backup_path_for path ts) = none)) := by
  have hbp : backup_path_for path ts ≠ path := backup_path_ne path ts
  have hex : fs.exists path = true := by
    have hg : objGet fs.files path = some doc := hdoc
    simp [FS.exists, hg]
  have hcb : create_backup fs path ts
      = .ok (backup_path_for path ts, fs.write (backup_path_for path ts) doc) := by
    simp [create_backup, hdoc]
  have hr1 : (fs.write (backup_path_for path ts) doc).read path = some doc := by
    have hg : objGet fs.files path = some doc := hdoc
    simp [FS.read, FS.write, objGet_objInsert_ne _ _ _ _ (Ne.symm hbp), hg]
  have hrb : (fs.write (backup_path_for path ts) doc).read (backup_path_for path ts)
      = some doc := by
    simp [FS.read, FS.write, objGet_objInsert_self]
  have hdel : ∀ d : Json,
      (((fs.write (backup_path_for path ts) doc).write path d).removeFile
          (backup_path_for path ts)).read (backup_path_for path ts) = none := by
    intro d
    simp only [FS.read, FS.write, FS.removeFile]
    exact objGet_objRemove_self _ _
      (objInsert_keys_nodup _ _ _ (objInsert_keys_nodup _ _ _ hnodup))
  constructor
  · intro sj doc' hsj hmut
    constructor
    · have hcomp : claude_mcp_add_fs req wd path ts (some e) fs
          = some (.error ("Failed to write Claude config: " ++ e),
              (fs.write (backup_path_for path ts) doc).write path doc) := by
        simp [claude_mcp_add_fs, hsj, hex, hcb, hr1, hmut, restore_backup, hrb]
      exact ⟨_, hcomp, by simp [FS.read, FS.write, objGet_objInsert_self]⟩
    · have hcomp : claude_mcp_add_fs req wd path ts none fs
          = some (Except.ok ⟨true,
              "Server \x27" ++ req.name ++ "\x27 added to "
                ++ (if is_global_config wd then "user" else "project")
                ++ " config successfully"⟩,
              ((fs.write (backup_path_for path ts) doc).write path doc').removeFile
                (backup_path_for path ts)) := by
        simp [claude_mcp_add_fs, hsj, hex, hcb, hr1, hmut]
      exact ⟨_, _, hcomp, hdel doc'⟩
  · intro rdoc hrem
    constructor
    · have hcomp : claude_mcp_remove_fs name wd path ts (some e) fs
          = (.error ("Failed to write Claude config: " ++ e),
              (fs.write (backup_path_for path ts) doc).write path doc) := by
        simp [claude_mcp_remove_fs, hex, hcb, hr1, hrem, restore_backup, hrb]
      exact ⟨_, hcomp, by simp [FS.read, FS.write, objGet_objInsert_self]⟩
    · have hcomp : claude_mcp_remove_fs name wd path ts none fs
          = (Except.ok ⟨true,
              "Server \x27" ++ name ++ "\x27 removed from "
                ++ (if is_global_config wd then "user" else "project")
                ++ " config successfully"⟩,
              ((fs.write (backup_path_for path ts) doc).write path rdoc).removeFile
                (backup_path_for path ts)) := by
        simp [claude_mcp_remove_fs, hex, hcb, hr1, hrem]
      exact ⟨_, _, hcomp, hdel rdoc⟩

/-- Witness for C2: a one-file file system whose scope map holds one entry;
a failing write during an add leaves the document unchanged, and a remove of
the present entry with no failure deletes the backup. -/
theorem mutation_backup_restore_witness :
    (∃ fsE, claude_mcp_add_fs
        { name := "s1", «type» := "stdio", url := none, command := some "npx",
          args := none, env := none }
        "Global" "/h/.claude.json" 7 (some "disk full")
        ⟨[("/h/.claude.json", Json.obj [("mcpServers",
            Json.obj [("old", Json.obj [("type", Json.str "http")])])])]⟩
      = some (.error ("Failed to write Claude config: " ++ "disk full"), fsE)
      ∧ fsE.read "/h/.claude.json"
        = some (Json.obj [("mcpServers",
            Json.obj [("old", Json.obj [("type", Json.str "http")])])]))
    ∧ (∃ resp fsS, claude_mcp_remove_fs "old" "Global" "/h/.claude.json" 7 none
        ⟨[("/h/.claude.json", Json.obj [("mcpServers",
            Json.obj [("old", Json.obj [("type", Json.str "http")])])])]⟩
      = (.ok resp, fsS)
      ∧ fsS.read (backup_path_for "/h/.claude.json" 7) = none) := by
  have h := mutation_backup_restore
    { name := "s1", «type» := "stdio", url := none, command := some "npx",
      args := none, env := none }
    "old" "Global" "/h/.claude.json" 7 "disk full"
    ⟨[("/h/.claude.json", Json.obj [("mcpServers",
        Json.obj [("old", Json.obj [("type", Json.str "http")])])])]⟩
    (Json.obj [("mcpServers", Json.obj [("old", Json.obj [("type", Json.str "http")])])])
    (by decide) rfl
  exact ⟨(h.1
    (Json.obj [("type", Json.str "stdio"), ("command", Json.str "npx")])
    (Json.obj [("mcpServers", Json.obj [("old", Json.obj [("type", Json.str "http")]),
      ("s1", Json.obj [("type", Json.str "stdio"), ("command", Json.str "npx")])])])
    rfl rfl).1,
   (h.2 (Json.obj [("mcpServers", Json.obj [])]) rfl).2⟩

/-! ## C9: removing an absent entry -/

/-- Counterexample to C9 as stated: when the document itself is missing — a
state in which the named entry is certainly absent from the global scope —
the remove fails with "Claude config file not found", a message that does
not contain "user" and so does not name the scope. -/
theorem remove_missing_file_message :
    (claude_mcp_remove_fs "airtable" "Global" "/h/.claude.json" 0 none ⟨[]⟩).1
      = .error "Claude config file not found"
    ∧ ¬ "user".data <:+: "Claude config file not found".data := by
  exact ⟨rfl, by decide⟩

/-- The remove mutation reports `found = false` on every scope whenever the
name is absent from that scope\x27s `mcpServers` map (including when any level
of the enclosing structure is missing or of the wrong shape). -/
theorem remove_mutation_absent (name wd : String) (doc : Json)
    (habs : ∀ servers, scopeServersObj wd doc = some servers →
      objGet servers name = none) :
    (remove_mutation name wd doc).2 = false := by
  cases hg : is_global_config wd with
  | true =>
      rw [remove_mutation, if_pos hg]
      cases doc with
      | obj fields =>
          cases hm : objGet fields "mcpServers" with
          | none => simp [Json.modifyKey, hm]
          | some v =>
              cases v with
              | obj servers =>
                  simp [Json.modifyKey, hm, habs servers
                    (by simp [scopeServersObj, hg, Json.get, hm, Json.asObj])]
              | null => simp [Json.modifyKey, hm]
              | bool b => simp [Json.modifyKey, hm]
              | num n => simp [Json.modifyKey, hm]
              | str s => simp [Json.modifyKey, hm]
              | arr a => simp [Json.modifyKey, hm]
      | null => simp [Json.modifyKey]
      | bool b => simp [Json.modifyKey]
      | num n => simp [Json.modifyKey]
      | str s => simp [Json.modifyKey]
      | arr a => simp [Json.modifyKey]
  | false =>
      rw [remove_mutation, if_neg (by simp [hg])]
      cases doc with
      | obj fields =>
          cases hp : objGet fields "projects" with
          | none => simp [Json.modifyKey, hp]
          | some v =>
              cases v with
              | obj projs =>
                  cases hw : objGet projs wd with
                  | none => simp [Json.modifyKey, hp, hw]
                  | some w =>
                      cases w with
                      | obj proj =>
                          cases hm : objGet proj "mcpServers" with
                          | none => simp [Json.modifyKey, hp, hw, hm]
                          | some m =>
                              cases m with
                              | obj servers =>
                                  simp [Json.modifyKey, hp, hw, hm, habs servers
                                    (by simp [scopeServersObj, hg, Json.get,
                                      hp, hw, hm, Json.asObj])]
                              | null => simp [Json.modifyKey, hp, hw, hm]
                              | bool b => simp [Json.modifyKey, hp, hw, hm]
                              | num n => simp [Json.modifyKey, hp, hw, hm]
                              | str s => simp [Json.modifyKey, hp, hw, hm]
                              | arr a => simp [Json.modifyKey, hp, hw, hm]
                      | null => simp [Json.modifyKey, hp, hw]
                      | bool b => simp [Json.modifyKey, hp, hw]
                      | num n => simp [Json.modifyKey, hp, hw]
                      | str s => simp [Json.modifyKey, hp, hw]
                      | arr a => simp [Json.modifyKey, hp, hw]
              | null => simp [Json.modifyKey, hp]
              | bool b => simp [Json.modifyKey, hp]
              | num n => simp [Json.modifyKey, hp]
              | str s => simp [Json.modifyKey, hp]
              | arr a => simp [Json.modifyKey, hp]
      | null => simp [Json.modifyKey]
      | bool b => simp [Json.modifyKey]
      | num n => simp [Json.modifyKey]
      | str s => simp [Json.modifyKey]
      | arr a => simp [Json.modifyKey]

/-- C9 (amended): for every scope, when the named entry is absent from that
scope\x27s map (including when the enclosing map, project object or `projects`
tree is missing) and the document exists, `claude_mcp_remove` fails with the
not-found error naming the scope — "user" for any global sentinel, "project"
for a project path — and the on-disk document is unchanged; when the
document itself is missing, it fails with "Claude config file not found"
(which does not name the scope) and the file system is untouched. -/
theorem remove_absent_not_found (name wd path : String) (ts : Nat)
    (w : Option String) (fs : FS) (doc : Json) :
    (fs.read path = none →
      claude_mcp_remove_fs name wd path ts w fs
        = (.error "Claude config file not found", fs))
    ∧ (fs.read path = some doc →
      (∀ servers, scopeServersObj wd doc = some servers →
        objGet servers name = none) →
      ∃ fs', claude_mcp_remove_fs name wd path ts w fs
          = (.error ("Server \x27" ++ name ++ "\x27 not found in "
              ++ (if is_global_config wd then "user" else "project")
              ++ " config"), fs')
        ∧ fs'.read path = some doc) := by
  constructor
  · intro hnone
    have hx : fs.exists path = false := by
      simp [FS.exists, show objGet fs.files path = none from hnone]
    simp [claude_mcp_remove_fs, hx]
  · intro hdoc habs
    have hbp : backup_path_for path ts ≠ path := backup_path_ne path ts
    have hx : fs.exists path = true := by
      simp [FS.exists, show objGet fs.files path = some doc from hdoc]
    have hcb : create_backup fs path ts
        = .ok (backup_path_for path ts, fs.write (backup_path_for path ts) doc) := by
      simp [create_backup, hdoc]
    have hr1 : (fs.write (backup_path_for path ts) doc).read path = some doc := by
      simp [FS.read, FS.write, objGet_objInsert_ne _ _ _ _ (Ne.symm hbp),
        show objGet fs.files path = some doc from hdoc]
    have hrb := remove_mutation_absent name wd doc habs
    cases hpair : remove_mutation name wd doc with
    | mk rd rb =>
        rw [hpair] at hrb
        subst hrb
        have hcomp : claude_mcp_remove_fs name wd path ts w fs
            = (.error ("Server \x27" ++ name ++ "\x27 not found in "
                ++ (if is_global_config wd then "user" else "project")
                ++ " config"),
               (fs.write (backup_path_for path ts) doc).removeFile
                 (backup_path_for path ts)) := by
          simp [claude_mcp_remove_fs, hx, hcb, hr1, hpair, String.append_assoc]
        refine ⟨_, hcomp, ?_⟩
        simp [FS.read, FS.write, FS.removeFile,
          objGet_objRemove_ne _ _ _ (Ne.symm hbp),
          objGet_objInsert_ne _ _ _ _ (Ne.symm hbp),
          show objGet fs.files path = some doc from hdoc]

/-- Witness for C9 (amended): removing `airtable` from an existing document
in the legacy global scope (map present but empty) and in a project scope
(no `projects` tree at all). -/
theorem remove_absent_not_found_witness :
    (∃ fs', claude_mcp_remove_fs "airtable" GLOBAL_PROJECT_ID "/h/.claude.json" 3 none
        ⟨[("/h/.claude.json", Json.obj [("mcpServers", Json.obj [])])]⟩
      = (.error ("Server \x27" ++ "airtable" ++ "\x27 not found in "
          ++ "user" ++ " config"), fs')
      ∧ fs'.read "/h/.claude.json" = some (Json.obj [("mcpServers", Json.obj [])]))
    ∧ (∃ fs', claude_mcp_remove_fs "airtable" "C:/proj" "/h/.claude.json" 3 none
        ⟨[("/h/.claude.json", Json.obj [("mcpServers", Json.obj [])])]⟩
      = (.error ("Server \x27" ++ "airtable" ++ "\x27 not found in "
          ++ "project" ++ " config"), fs')
      ∧ fs'.read "/h/.claude.json" = some (Json.obj [("mcpServers", Json.obj [])])) :=
  ⟨(remove_absent_not_found "airtable" GLOBAL_PROJECT_ID "/h/.claude.json" 3 none
      ⟨[("/h/.claude.json", Json.obj [("mcpServers", Json.obj [])])]⟩
      (Json.obj [("mcpServers", Json.obj [])])).2 rfl
    (by
      intro servers h
      simp [scopeServersObj, is_global_config, GLOBAL_PROJECT_ID, GLOBAL_WINDOWS_ID,
        GLOBAL_WSL_ID, Json.get, objGet, Json.asObj] at h
      subst h
      rfl),
   (remove_absent_not_found "airtable" "C:/proj" "/h/.claude.json" 3 none
      ⟨[("/h/.claude.json", Json.obj [("mcpServers", Json.obj [])])]⟩
      (Json.obj [("mcpServers", Json.obj [])])).2 rfl
    (by
      intro servers h
      simp [scopeServersObj, is_global_config, GLOBAL_PROJECT_ID, GLOBAL_WINDOWS_ID,
        GLOBAL_WSL_ID, Json.get, objGet] at h)⟩

/-! ## C4, C5, C6: path resolution -/

theorem scan_homes_eq (env : Env) (filename : String) (homes : List String) :
    scan_homes env filename homes
      = (homes.map (fun user_home => pjoin user_home filename)).find? env.pathExists := by
  induction homes with
  | nil => rfl
  | cons hd tl ih =>
      simp only [scan_homes, List.map_cons]
      by_cases h : env.pathExists (pjoin hd filename)
      · rw [if_pos h, List.find?_cons_of_pos _ h]
      · rw [if_neg h, List.find?_cons_of_neg _ h, ih]

theorem find_wsl_go_eq (env : Env) (filename : String) (ds : List String) :
    find_wsl_go env filename ds
      = ((ds.filter (fun d => env.pathExists (wsl_base_of d))).flatMap
          (fun d => (env.readDir (pjoin (wsl_base_of d) "home")).map
            (fun user_home => pjoin user_home filename))).find? env.pathExists := by
  induction ds with
  | nil => rfl
  | cons d rest ih =>
      simp only [find_wsl_go]
      rw [scan_homes_eq]
      by_cases hd : env.pathExists (wsl_base_of d)
      · cases hf : ((env.readDir (pjoin (wsl_base_of d) "home")).map
            (fun user_home => pjoin user_home filename)).find? env.pathExists with
        | none => simp [hd, hf, List.filter_cons, List.find?_append, Option.or, ih]
        | some p => simp [hd, hf, List.filter_cons, List.find?_append, Option.or]
      · simp [hd, List.filter_cons, ih]

/-- `find_wsl_claude_config` returns the first existing path among the
candidate paths of the reachable distributions, scanned in the fixed
enumeration order. -/
theorem find_wsl_claude_config_eq (env : Env) (filename : String) :
    find_wsl_claude_config env filename
      = (wsl_candidate_paths env filename).find? env.pathExists := by
  rw [find_wsl_claude_config, find_wsl_go_eq]
  rfl

/-- C6: on Windows, resolving the nested-global sentinel returns the first
document found scanning the fixed distribution list's reachable roots, and
fails with "WSL Claude config not found" exactly when no candidate path
exists; on any other platform it always fails. -/
theorem resolve_global_nested (env : Env) :
    (env.isWindows = false →
      get_claude_config_path env (some GLOBAL_WSL_ID)
        = .error "WSL is only available on Windows")
    ∧ (env.isWindows = true →
      get_claude_config_path env (some GLOBAL_WSL_ID)
        = (match (wsl_candidate_paths env ".claude.json").find? env.pathExists with
           | some p => .ok p
           | none => .error "WSL Claude config not found")
      ∧ (get_claude_config_path env (some GLOBAL_WSL_ID)
          = .error "WSL Claude config not found"
        ↔ ∀ p ∈ wsl_candidate_paths env ".claude.json", env.pathExists p = false)) := by
  have h1 : is_windows_global GLOBAL_WSL_ID = false := rfl
  have h2 : is_wsl_global GLOBAL_WSL_ID = true := rfl
  have h3 : is_global_config GLOBAL_WSL_ID = true := rfl
  constructor
  · intro hw
    simp [get_claude_config_path, h1, h2, hw]
  · intro hw
    have hres : get_claude_config_path env (some GLOBAL_WSL_ID)
        = (match (wsl_candidate_paths env ".claude.json").find? env.pathExists with
           | some p => .ok p
           | none => .error "WSL Claude config not found") := by
      cases hf : (wsl_candidate_paths env ".claude.json").find? env.pathExists <;>
        simp [get_claude_config_path, h1, h2, h3, hw, get_wsl_config_path,
          find_wsl_claude_config_eq, hf]
    refine ⟨hres, ?_⟩
    rw [hres]
    cases hf : (wsl_candidate_paths env ".claude.json").find? env.pathExists with
    | some p =>
        simp only []
        constructor
        · intro hcontra
          exact absurd hcontra (by simp)
        · intro hall
          have hp := List.find?_some hf
          have hm := List.mem_of_find?_eq_some hf
          rw [hall p hm] at hp
          exact absurd hp (by simp)
    | none =>
        have := List.find?_eq_none.mp hf
        simp only []
        constructor
        · intro _ p hp
          have := this p hp
          simpa using this
        · intro _
          trivial

/-- A Windows environment with no native config file but a discoverable WSL
config in the Ubuntu distribution. -/
def env_wsl_only : Env :=
  { isWindows := true
  , homeDir := some "C:/Users/u"
  , pathExists := fun p =>
      p == wsl_base_of "Ubuntu" || p == "\\\\wsl$\\Ubuntu/home/alice/.claude.json"
  , readDir := fun d =>
      if d == pjoin (wsl_base_of "Ubuntu") "home"
      then ["\\\\wsl$\\Ubuntu/home/alice"] else [] }

/-- A non-Windows environment with a home directory and no files. -/
def env_native_only : Env :=
  { isWindows := false
  , homeDir := some "H"
  , pathExists := fun _ => false
  , readDir := fun _ => [] }

/-- Witness for C6: the WSL document of `env_wsl_only` is found; on the
non-Windows environment the nested sentinel always fails. -/
theorem resolve_global_nested_witness :
    get_claude_config_path env_wsl_only (some GLOBAL_WSL_ID)
      = .ok "\\\\wsl$\\Ubuntu/home/alice/.claude.json"
    ∧ get_claude_config_path env_native_only (some GLOBAL_WSL_ID)
      = .error "WSL is only available on Windows" :=
  ⟨((resolve_global_nested env_wsl_only).2 rfl).1,
   (resolve_global_nested env_native_only).1 rfl⟩

/-- Counterexample to C4 as stated: with no native config file and a
discoverable WSL document, the legacy global sentinel "Global" resolves to
the WSL document path, not to the native home-directory path. -/
theorem resolve_legacy_global_prefers_wsl :
    get_claude_config_path env_wsl_only (some GLOBAL_PROJECT_ID)
      = .ok "\\\\wsl$\\Ubuntu/home/alice/.claude.json"
    ∧ get_windows_config_path env_wsl_only = .ok "C:/Users/u/.claude.json"
    ∧ ("\\\\wsl$\\Ubuntu/home/alice/.claude.json" : String)
        ≠ "C:/Users/u/.claude.json" :=
  ⟨rfl, rfl, by decide⟩

/-- C4 (amended): the GlobalNative sentinel ("Global (Windows)") resolves to
the native home-directory document path unconditionally — whatever exists on
disk and whatever WSL documents are discoverable; the legacy sentinel
"Global" resolves to the native path only when that file exists, otherwise
to a discoverable WSL document, otherwise to the (not yet existing) native
path for lazy creation. -/
theorem resolve_global_sentinels (env : Env) (h : String)
    (hh : env.homeDir = some h) :
    get_claude_config_path env (some GLOBAL_WINDOWS_ID) = .ok (pjoin h ".claude.json")
    ∧ get_claude_config_path env (some GLOBAL_PROJECT_ID)
        = (if env.pathExists (pjoin h ".claude.json")
           then .ok (pjoin h ".claude.json")
           else match get_wsl_config_path env with
                | some wsl_path => .ok wsl_path
                | none => .ok (pjoin h ".claude.json")) := by
  constructor
  · have h0 : is_windows_global GLOBAL_WINDOWS_ID = true := rfl
    simp [get_claude_config_path, h0, get_windows_config_path, hh]
  · have h1 : is_windows_global GLOBAL_PROJECT_ID = false := rfl
    have h2 : is_wsl_global GLOBAL_PROJECT_ID = false := rfl
    have h3 : is_global_config GLOBAL_PROJECT_ID = true := rfl
    by_cases hpe : env.pathExists (pjoin h ".claude.json")
    · simp [get_claude_config_path, h1, h2, h3, legacy_fallback,
        get_windows_config_path, hh, hpe]
    · cases hw : env.isWindows
      · simp [get_claude_config_path, h1, h2, h3, legacy_fallback,
          get_windows_config_path, get_wsl_config_path, hh, hpe, hw]
      · cases hwc : get_wsl_config_path env <;>
          simp [get_claude_config_path, h1, h2, h3, legacy_fallback,
            get_windows_config_path, hh, hpe, hw, hwc]

/-- Witness for C4 (amended): on `env_native_only` both sentinels resolve to
the native path. -/
theorem resolve_global_sentinels_witness :
    get_claude_config_path env_native_only (some GLOBAL_WINDOWS_ID)
      = .ok (pjoin "H" ".claude.json")
    ∧ get_claude_config_path env_native_only (some GLOBAL_PROJECT_ID)
      = .ok (pjoin "H" ".claude.json") :=
  resolve_global_sentinels env_native_only "H" rfl

/-- C5: on Windows, a non-empty, non-sentinel project path starting with `/`
resolves to a discoverable WSL document, falling back to the native document
when none is reachable; any other project path resolves to the native
document. -/
theorem resolve_project_path (env : Env) (h wd : String)
    (hwin : env.isWindows = true) (hh : env.homeDir = some h)
    (hne : wd.isEmpty = false) (hng : is_global_config wd = false) :
    get_claude_config_path env (some wd)
      = (if is_linux_path wd then
           match get_wsl_config_path env with
           | some wsl_path => .ok wsl_path
           | none => .ok (pjoin h ".claude.json")
         else .ok (pjoin h ".claude.json")) := by
  have hng' := hng
  simp only [is_global_config, Bool.or_eq_false_iff] at hng'
  obtain ⟨⟨hgp, hgw⟩, hgwsl⟩ := hng'
  have h1 : is_windows_global wd = false := hgw
  have h2 : is_wsl_global wd = false := hgwsl
  by_cases hl : is_linux_path wd
  · cases hwc : get_wsl_config_path env with
    | some p =>
        simp [get_claude_config_path, h1, h2, hng, hwin, hne, hl, hwc]
    | none =>
        by_cases hpe : env.pathExists (pjoin h ".claude.json") <;>
          simp [get_claude_config_path, h1, h2, hng, hwin, hne, hl, hwc,
            legacy_fallback, get_windows_config_path, hh, hpe]
  · simp [get_claude_config_path, h1, h2, hng, hwin, hne, hl,
      get_windows_config_path, hh]

/-- Witness for C5: on `env_wsl_only`, the POSIX-style project path goes to
the WSL document and the drive-style path goes to the native document. -/
theorem resolve_project_path_witness :
    get_claude_config_path env_wsl_only (some "/home/u/proj")
      = .ok "\\\\wsl$\\Ubuntu/home/alice/.claude.json"
    ∧ get_claude_config_path env_wsl_only (some "D:/proj")
      = .ok (pjoin "C:/Users/u" ".claude.json") :=
  ⟨resolve_project_path env_wsl_only "C:/Users/u" "/home/u/proj" rfl rfl rfl rfl,
   resolve_project_path env_wsl_only "C:/Users/u" "D:/proj" rfl rfl rfl rfl⟩

/-! ## C7: scope listing -/

/-- A Windows environment with no resolvable home directory but a
discoverable WSL document. -/
def env_no_home : Env :=
  { isWindows := true
  , homeDir := none
  , pathExists := fun p =>
      p == wsl_base_of "Ubuntu" || p == "\\\\wsl$\\Ubuntu/home/alice/.claude.json"
  , readDir := fun d =>
      if d == pjoin (wsl_base_of "Ubuntu") "home"
      then ["\\\\wsl$\\Ubuntu/home/alice"] else [] }

/-- Counterexample to C7 as stated: with no resolvable home directory, the
result of `claude_list_projects` does not include the native global
sentinel (here it still lists the discovered WSL global scope). -/
theorem list_projects_missing_native_sentinel :
    claude_list_projects env_no_home ⟨[]⟩ = [GLOBAL_WSL_ID]
    ∧ GLOBAL_WINDOWS_ID ∉ claude_list_projects env_no_home ⟨[]⟩ := by
  refine ⟨rfl, ?_⟩
  rw [show claude_list_projects env_no_home ⟨[]⟩ = [GLOBAL_WSL_ID] from rfl]
  decide

/-- C7 (amended): whenever the home directory is resolvable, the scope
listing is the native global sentinel, then the nested global sentinel
exactly when a WSL document is discoverable, then the lexicographically
sorted, duplicate-free union of the project keys of the discovered native
and WSL documents. -/
theorem list_projects_shape (env : Env) (fs : FS) (h : String)
    (hh : env.homeDir = some h) :
    ∃ rest,
      claude_list_projects env fs
        = GLOBAL_WINDOWS_ID ::
            ((match get_wsl_config_path env with
              | some _ => [GLOBAL_WSL_ID]
              | none => []) ++ rest)
      ∧ List.Sorted (· ≤ ·) rest ∧ rest.Nodup
      ∧ (∀ p, p ∈ rest ↔
          p ∈ native_project_paths env fs ∨ p ∈ wsl_project_paths env fs) := by
  refine ⟨List.insertionSort (· ≤ ·)
    ((native_project_paths env fs ++ wsl_project_paths env fs).dedup), ?_, ?_, ?_, ?_⟩
  · have hok : (get_windows_config_path env).isOk = true := by
      simp [get_windows_config_path, hh, Except.isOk, Except.toBool]
    cases hw : env.isWindows
    · simp [claude_list_projects, hok, get_wsl_config_path, hw]
    · cases hwc : get_wsl_config_path env <;>
        simp [claude_list_projects, hok, hw, hwc]
  · exact List.sorted_insertionSort _ _
  · exact (List.perm_insertionSort _ _).symm.nodup (List.nodup_dedup _)
  · intro p
    rw [(List.perm_insertionSort _ _).mem_iff, List.mem_dedup, List.mem_append]

/-- Two discovered documents with overlapping project keys. -/
def fs_two_docs : FS :=
  ⟨[("C:/Users/u/.claude.json",
      Json.obj [("projects", Json.obj [("C:/p2", Json.obj []), ("C:/p1", Json.obj [])])]),
    ("\\\\wsl$\\Ubuntu/home/alice/.claude.json",
      Json.obj [("projects", Json.obj [("/wp", Json.obj []), ("C:/p1", Json.obj [])])])]⟩

/-- Witness for C7 (amended): on `env_wsl_only` with both documents present,
the listing is the two sentinels followed by the sorted project-key union. -/
theorem list_projects_shape_witness :
    ∃ rest,
      claude_list_projects env_wsl_only fs_two_docs
        = GLOBAL_WINDOWS_ID :: ([GLOBAL_WSL_ID] ++ rest)
      ∧ List.Sorted (· ≤ ·) rest ∧ rest.Nodup
      ∧ (∀ p, p ∈ rest ↔
          p ∈ native_project_paths env_wsl_only fs_two_docs
          ∨ p ∈ wsl_project_paths env_wsl_only fs_two_docs) :=
  list_projects_shape env_wsl_only fs_two_docs "C:/Users/u" rfl

end McpLinker
